import Mathlib

/-!
Shallow embedding of the pastebin service from `src/main.rs`.

A Rust `String` is modeled as the list of its Unicode scalar values
(`chars`); `str::len()` is the UTF-8 byte length, computed by `byteLen`.
Rust panics (`unwrap` on `None`, index out of bounds) are modeled by an
explicit `panic` constructor in the result types.  The SQLite table of
entries is modeled as a list of entries keyed by `id`; the `INSERT`
failure on a duplicate primary key becomes an explicit lookup.
-/

namespace Pastebin

/-- A Rust string, as its list of Unicode scalar values. -/
abbrev Str := List Nat

/-- `c` is a valid Unicode scalar value, i.e. a value a Rust `char` can hold. -/
abbrev IsScalar (c : Nat) : Prop := c < 0x110000 ∧ ¬ (0xD800 ≤ c ∧ c ≤ 0xDFFF)

/-- `char::from_u32`: `some` exactly on valid scalar values. -/
def charFromU32 (n : Nat) : Option Nat :=
  if IsScalar n then some n else none

/-- UTF-8 byte length of one scalar value. -/
def utf8Len (c : Nat) : Nat :=
  if c < 0x80 then 1 else if c < 0x800 then 2 else if c < 0x10000 then 3 else 4

/-- `str::len()`: the byte length of the UTF-8 encoding. -/
def byteLen (s : Str) : Nat := (s.map utf8Len).sum

/-- The `Error` enum of `main.rs`. -/
inductive Error
  | InvalidKeyLen (key_len data_len : Nat)
  | EntryAlreadyExists
  | InvalidKey
  | EntryNotFound (id : String)
  | EntryNotEncrypted (id : String)
deriving DecidableEq

/-- Result of `pad`: `Ok(out)`, `Err(e)`, or a Rust panic
(`out_char.unwrap()` on `None`, or `data_chars[i]` out of bounds). -/
inductive PadResult
  | ok (out : Str)
  | err (e : Error)
  | panic
deriving DecidableEq

/-- The loop of `pad`: `for i in 0..key_chars.len()` XOR-combines
`data_chars[i]` with `key_chars[i]` and unwraps `char::from_u32`. -/
def padGo : Str → Str → PadResult
  | [], _ => .ok []
  | _ :: _, [] => .panic
  | k :: ks, d :: ds =>
    match charFromU32 (Nat.xor d k) with
    | none => .panic
    | some c =>
      match padGo ks ds with
      | .ok out => .ok (c :: out)
      | .err e => .err e
      | .panic => .panic

/-- `fn pad(key, data)`: rejects unequal byte lengths with
`InvalidKeyLen`, then XORs scalar values position-wise. -/
def pad (key data : Str) : PadResult :=
  if byteLen key ≠ byteLen data then
    .err (.InvalidKeyLen (byteLen key) (byteLen data))
  else padGo key data

/-- Outcome of the string comparison, with a Rust panic for `b[i]` out of
bounds. -/
inductive CmpOutcome
  | ok
  | invalidKey
  | lenErr (a_len b_len : Nat)
  | panic
deriving DecidableEq

/-- The loop of `not_so_constant_time_strcmp`: one `sleep(100ms)` per
iteration, short-circuiting on the first mismatch.  Returns the outcome
together with the number of iterations (sleeps) executed. -/
def strcmpGo : Str → Str → CmpOutcome × Nat
  | [], _ => (.ok, 0)
  | _ :: _, [] => (.panic, 1)
  | a :: arest, b :: brest =>
    if a ≠ b then (.invalidKey, 1)
    else
      let r := strcmpGo arest brest
      (r.1, r.2 + 1)

/-- `fn not_so_constant_time_strcmp(a, b)`: rejects unequal byte lengths
with `InvalidKeyLen{a.len(), b.len()}`, then compares char by char with a
fixed sleep per char, returning `InvalidKey` at the first mismatch. -/
def not_so_constant_time_strcmp (a b : Str) : CmpOutcome × Nat :=
  if byteLen a ≠ byteLen b then (.lenErr (byteLen a) (byteLen b), 0)
  else strcmpGo a b

/-- The `Entry` row: `id`, `content`, `encrypted` discriminant, optional
`key`. -/
structure Entry where
  id : String
  content : Str
  encrypted : Int
  key : Option Str
deriving DecidableEq

/-- The `entries` table, keyed by `id`. -/
abbrev Db := List Entry

/-- `Db::get_entry`: `SELECT ... WHERE id = ?`. -/
def Db.get_entry (db : Db) (id : String) : Option Entry :=
  db.find? (fun e => e.id == id)

/-- `Db::add_entry`: `INSERT` fails (mapped to `EntryAlreadyExists`) when
the primary key `id` is already present; otherwise stores the entry
verbatim. -/
def Db.add_entry (db : Db) (entry : Entry) : Except Error Db :=
  match Db.get_entry db entry.id with
  | some _ => Except.error Error.EntryAlreadyExists
  | none => Except.ok (db ++ [entry])

/-- The `GET /get?id` route: on a hit, answers the entry with the `key`
field replaced by `None`; on a miss, `EntryNotFound`. -/
def get_entry (db : Db) (id : String) : Except Error Entry :=
  match Db.get_entry db id with
  | some entry => Except.ok ⟨entry.id, entry.content, entry.encrypted, none⟩
  | none => Except.error (Error.EntryNotFound id)

/-- The `POST /add` route: delegates to `Db::add_entry` unchanged. -/
def add_entry (db : Db) (entry : Entry) : Except Error Db :=
  Db.add_entry db entry

/-- Result of the `POST /decrypt` route. -/
inductive DecryptResult
  | ok (plaintext : Str)
  | err (e : Error)
  | panic
deriving DecidableEq

/-- The `POST /decrypt?id` route: looks the entry up, answers
`EntryNotEncrypted` when its `key` field is `None`, otherwise compares the
request key against the stored key with `not_so_constant_time_strcmp` and,
on success, answers `pad(request.key, entry.content)`. -/
def decrypt (db : Db) (id : String) (requestKey : Str) : DecryptResult :=
  match Db.get_entry db id with
  | none => .err (.EntryNotFound id)
  | some entry =>
    match entry.key with
    | none => .err (.EntryNotEncrypted id)
    | some key =>
      match not_so_constant_time_strcmp requestKey key with
      | (.ok, _) =>
        match pad requestKey entry.content with
        | .ok out => .ok out
        | .err e => .err e
        | .panic => .panic
      | (.invalidKey, _) => .err .InvalidKey
      | (.lenErr al bl, _) => .err (.InvalidKeyLen al bl)
      | (.panic, _) => .panic

/-! ### Helper lemmas -/

theorem utf8Len_pos (c : Nat) : 0 < utf8Len c := by
  unfold utf8Len
  split
  · omega
  · split
    · omega
    · split <;> omega

theorem utf8Len_of_lt_128 {c : Nat} (h : c < 128) : utf8Len c = 1 := by
  unfold utf8Len
  rw [if_pos h]

theorem byteLen_nil : byteLen [] = 0 := rfl

theorem byteLen_cons (c : Nat) (s : Str) :
    byteLen (c :: s) = utf8Len c + byteLen s := by
  simp [byteLen]

theorem eq_nil_of_byteLen_eq_zero {s : Str} (h : byteLen s = 0) : s = [] := by
  cases s with
  | nil => rfl
  | cons c cs =>
    rw [byteLen_cons] at h
    have := utf8Len_pos c
    omega

theorem byteLen_ascii {s : Str} (h : ∀ c ∈ s, c < 128) :
    byteLen s = s.length := by
  induction s with
  | nil => rfl
  | cons c cs ih =>
    rw [byteLen_cons, utf8Len_of_lt_128 (h c (by simp)),
      ih (fun x hx => h x (by simp [hx]))]
    simp [Nat.add_comm]

theorem xor_lt_128 {a b : Nat} (ha : a < 128) (hb : b < 128) :
    Nat.xor a b < 128 := by
  have h := Nat.xor_lt_two_pow (n := 7) (x := a) (y := b)
    (by norm_num [ha]) (by norm_num [hb])
  norm_num at h
  exact h

theorem isScalar_of_lt_128 {c : Nat} (h : c < 128) : IsScalar c := by
  constructor
  · omega
  · omega

theorem charFromU32_of_lt_128 {c : Nat} (h : c < 128) :
    charFromU32 c = some c := by
  unfold charFromU32
  rw [if_pos (isScalar_of_lt_128 h)]

theorem charFromU32_eq_none {n : Nat} (h : ¬ IsScalar n) :
    charFromU32 n = none := by
  unfold charFromU32
  rw [if_neg h]

theorem padGo_involution (key : Str) : ∀ data : Str,
    (∀ c ∈ key, c < 128) → (∀ c ∈ data, c < 128) →
    key.length = data.length →
    ∃ out, padGo key data = PadResult.ok out ∧ (∀ c ∈ out, c < 128) ∧
      out.length = key.length ∧ padGo key out = PadResult.ok data := by
  induction key with
  | nil =>
    intro data _ _ hlen
    have hdata : data = [] := by
      cases data with
      | nil => rfl
      | cons d ds => simp at hlen
    subst hdata
    exact ⟨[], rfl, by simp, rfl, rfl⟩
  | cons k ks ih =>
    intro data hk hd hlen
    cases data with
    | nil => simp at hlen
    | cons d ds =>
      have hk0 : k < 128 := hk k (by simp)
      have hd0 : d < 128 := hd d (by simp)
      have hks : ∀ c ∈ ks, c < 128 := fun c hc => hk c (by simp [hc])
      have hds : ∀ c ∈ ds, c < 128 := fun c hc => hd c (by simp [hc])
      have hlen' : ks.length = ds.length := by simpa using hlen
      obtain ⟨out, h1, h2, h3, h4⟩ := ih ds hks hds hlen'
      refine ⟨Nat.xor d k :: out, ?_, ?_, ?_, ?_⟩
      · simp [padGo, charFromU32_of_lt_128 (xor_lt_128 hd0 hk0), h1]
      · intro c hc
        rcases List.mem_cons.mp hc with h | h
        · subst h
          exact xor_lt_128 hd0 hk0
        · exact h2 c h
      · simp [h3]
      · have hxor : Nat.xor (Nat.xor d k) k = d := Nat.xor_cancel_right k d
        simp [padGo, hxor, charFromU32_of_lt_128 hd0, h4]

theorem padGo_ne_err (key : Str) : ∀ (data : Str) (e : Error),
    padGo key data ≠ PadResult.err e := by
  induction key with
  | nil =>
    intro data e
    simp [padGo]
  | cons k ks ih =>
    intro data e
    cases data with
    | nil => simp [padGo]
    | cons d ds =>
      cases hc : charFromU32 (Nat.xor d k) with
      | none => simp [padGo, hc]
      | some c =>
        cases hg : padGo ks ds with
        | ok out => simp [padGo, hc, hg]
        | err e2 => exact absurd hg (ih ds e2)
        | panic => simp [padGo, hc, hg]

theorem strcmpGo_self (a : Str) : strcmpGo a a = (CmpOutcome.ok, a.length) := by
  induction a with
  | nil => rfl
  | cons x xs ih => simp [strcmpGo, ih]

theorem strcmpGo_ne (a : Str) : ∀ b : Str, byteLen a = byteLen b → a ≠ b →
    ∃ n, strcmpGo a b = (CmpOutcome.invalidKey, n) := by
  induction a with
  | nil =>
    intro b hlen hne
    have : b = [] := eq_nil_of_byteLen_eq_zero (by rw [← hlen]; rfl)
    exact absurd this.symm hne
  | cons x xs ih =>
    intro b hlen hne
    cases b with
    | nil =>
      rw [byteLen_cons, byteLen_nil] at hlen
      have := utf8Len_pos x
      omega
    | cons y ys =>
      by_cases hxy : x = y
      · subst hxy
        rw [byteLen_cons, byteLen_cons] at hlen
        have hlen' : byteLen xs = byteLen ys := by omega
        have hne' : xs ≠ ys := by
          intro h
          exact hne (by rw [h])
        obtain ⟨n, hn⟩ := ih ys hlen' hne'
        exact ⟨n + 1, by simp [strcmpGo, hn]⟩
      · exact ⟨1, by simp [strcmpGo, hxy]⟩

theorem strcmpGo_firstDiff (p : List Nat) (u v : List Nat) (x y : Nat)
    (h : x ≠ y) :
    strcmpGo (p ++ x :: u) (p ++ y :: v) = (CmpOutcome.invalidKey, p.length + 1) := by
  induction p with
  | nil => simp [strcmpGo, h]
  | cons a p ih => simp [strcmpGo, ih]

theorem get_entry_append_self (db : Db) (e : Entry)
    (h : Db.get_entry db e.id = none) :
    Db.get_entry (db ++ [e]) e.id = some e := by
  unfold Db.get_entry at h ⊢
  rw [List.find?_append, h]
  simp [List.find?]

theorem pad_err_elim (key data : Str) (e : Error)
    (h : pad key data = PadResult.err e) :
    e = Error.InvalidKeyLen (byteLen key) (byteLen data) := by
  unfold pad at h
  by_cases hc : byteLen key ≠ byteLen data
  · rw [if_pos hc] at h
    injection h with h2
    exact h2.symm
  · rw [if_neg hc] at h
    exact absurd h (padGo_ne_err key data e)

/-! ### Claims -/

/-- Claim C1, counterexample: over equal byte-length Unicode inputs the pad
transform is not self-inverse — the XOR changes the UTF-8 byte lengths, so
the second application fails its length check. -/
theorem C1_counterexample :
    byteLen [256, 97] = byteLen [97, 256] ∧
    pad [256, 97] [97, 256] = PadResult.ok [353, 353] ∧
    pad [256, 97] [353, 353] ≠ PadResult.ok [97, 256] := by decide

/-- Claim C1 (amended): for every key and data of equal byte length whose
scalar values are all ASCII (below 128), applying `pad` twice with the same
key returns the original data. -/
theorem C1_pad_involution_ascii (key data : Str)
    (hk : ∀ c ∈ key, c < 128) (hd : ∀ c ∈ data, c < 128)
    (hlen : byteLen key = byteLen data) :
    ∃ out, pad key data = PadResult.ok out ∧ pad key out = PadResult.ok data := by
  have hlen' : key.length = data.length := by
    rw [← byteLen_ascii hk, ← byteLen_ascii hd]
    exact hlen
  obtain ⟨out, h1, h2, h3, h4⟩ := padGo_involution key data hk hd hlen'
  have hbout : byteLen out = byteLen key := by
    rw [byteLen_ascii h2, h3, byteLen_ascii hk]
  refine ⟨out, ?_, ?_⟩
  · unfold pad
    rw [if_neg (fun h => h hlen)]
    exact h1
  · unfold pad
    rw [if_neg (fun h => h hbout.symm)]
    exact h4

/-- Claim C1, witness for the amended theorem at a concrete ASCII pair. -/
theorem C1_witness :
    ∃ out, pad [107] [100] = PadResult.ok out ∧
      pad [107] out = PadResult.ok [100] :=
  C1_pad_involution_ascii [107] [100] (by decide) (by decide) (by decide)

/-- Claim C3, counterexample: the add route persists the posted entry
verbatim — a write whose key length (3) differs from its content length (2)
succeeds and stores the raw content, even though `pad` would reject the
pair, so no encoding happened and no `LengthMismatch` is raised. -/
theorem C3_counterexample :
    add_entry [] ⟨"c", [104, 105], 0, some [1, 2, 3]⟩
      = Except.ok [⟨"c", [104, 105], 0, some [1, 2, 3]⟩] ∧
    pad [1, 2, 3] [104, 105] = PadResult.err (Error.InvalidKeyLen 3 2) :=
  ⟨rfl, by decide⟩

/-- Claim C3 (amended): the add route performs no encoding and no length
validation — for any entry whose id is not yet stored, including entries
whose key and content lengths differ, the insert succeeds and the entry is
stored exactly as supplied. -/
theorem C3_store_verbatim (db : Db) (e : Entry)
    (h : Db.get_entry db e.id = none) :
    add_entry db e = Except.ok (db ++ [e]) ∧
    Db.get_entry (db ++ [e]) e.id = some e := by
  constructor
  · unfold add_entry Db.add_entry
    rw [h]
  · exact get_entry_append_self db e h

/-- Claim C3, witness: a concrete mismatched-length keyed entry is stored
verbatim. -/
theorem C3_witness :
    add_entry [] ⟨"d", [104, 105], 0, some [1, 2, 3]⟩
      = Except.ok [⟨"d", [104, 105], 0, some [1, 2, 3]⟩] ∧
    Db.get_entry [⟨"d", [104, 105], 0, some [1, 2, 3]⟩] "d"
      = some ⟨"d", [104, 105], 0, some [1, 2, 3]⟩ :=
  C3_store_verbatim [] ⟨"d", [104, 105], 0, some [1, 2, 3]⟩ rfl

/-- Claim C4, counterexample: a plain read of a protected entry strips the
key but returns the stored protected content untouched. -/
theorem C4_counterexample :
    get_entry [⟨"b", [31, 10, 30, 0, 11], 1, some [119, 111, 114, 108, 100]⟩] "b"
      = Except.ok ⟨"b", [31, 10, 30, 0, 11], 1, none⟩ := rfl

/-- Claim C4 (amended): a plain read strips only the `key` field, answering
`None` for it; the stored content is returned for every entry, protected or
not; an absent id yields `EntryNotFound`. -/
theorem C4_read_plain (db : Db) (id : String) :
    (∀ e, Db.get_entry db id = some e →
      get_entry db id = Except.ok ⟨e.id, e.content, e.encrypted, none⟩) ∧
    (Db.get_entry db id = none →
      get_entry db id = Except.error (Error.EntryNotFound id)) := by
  constructor
  · intro e he
    unfold get_entry
    rw [he]
  · intro he
    unfold get_entry
    rw [he]

/-- Claim C4, witness at a concrete protected entry and a missing id. -/
theorem C4_witness :
    get_entry [⟨"a", [1, 2], 1, some [3, 4]⟩] "a"
      = Except.ok ⟨"a", [1, 2], 1, none⟩ ∧
    get_entry [⟨"a", [1, 2], 1, some [3, 4]⟩] "z"
      = Except.error (Error.EntryNotFound "z") :=
  ⟨(C4_read_plain [⟨"a", [1, 2], 1, some [3, 4]⟩] "a").1 _ rfl,
   (C4_read_plain [⟨"a", [1, 2], 1, some [3, 4]⟩] "z").2 rfl⟩

/-- Claim C5, counterexample: for two same-length pairs differing at
position 0 and at position 1, the comparison executes 1 and 2 sleep
iterations respectively — it stops before scanning the full length and its
running time depends on the position of the first mismatch. -/
theorem C5_counterexample :
    not_so_constant_time_strcmp [0, 1] [2, 1] = (CmpOutcome.invalidKey, 1) ∧
    not_so_constant_time_strcmp [0, 1] [0, 2] = (CmpOutcome.invalidKey, 2) := by
  decide

/-- Claim C5 (amended): the comparison short-circuits — on inputs of equal
byte length that agree on a common prefix `p` and then differ, it stops
after exactly `p.length + 1` iterations (each carrying a fixed 100 ms
sleep), so the iteration count, and with it the execution time, reveals the
position of the first differing element. -/
theorem C5_short_circuit (p u v : List Nat) (x y : Nat) (hxy : x ≠ y)
    (hlen : byteLen (p ++ x :: u) = byteLen (p ++ y :: v)) :
    not_so_constant_time_strcmp (p ++ x :: u) (p ++ y :: v)
      = (CmpOutcome.invalidKey, p.length + 1) := by
  unfold not_so_constant_time_strcmp
  rw [if_neg (fun h => h hlen)]
  exact strcmpGo_firstDiff p u v x y hxy

/-- Claim C5, witness: a mismatch at position 1 of 3 stops after 2
iterations. -/
theorem C5_witness :
    not_so_constant_time_strcmp [7, 1, 5] [7, 2, 5]
      = (CmpOutcome.invalidKey, 2) :=
  C5_short_circuit [7] [5] [5] 1 2 (by decide) (by decide)

/-- Claim C7: a second insert under an already-stored id fails with
`EntryAlreadyExists`, produces no new store, and the first entry is still
the one found under that id. -/
theorem C7_insert_once (db db1 : Db) (e1 e2 : Entry)
    (h1 : add_entry db e1 = Except.ok db1) (hid : e2.id = e1.id) :
    add_entry db1 e2 = Except.error Error.EntryAlreadyExists ∧
    Db.get_entry db1 e1.id = some e1 := by
  unfold add_entry Db.add_entry at h1
  cases hfind : Db.get_entry db e1.id with
  | some x =>
    rw [hfind] at h1
    exact absurd h1 (by simp)
  | none =>
    rw [hfind] at h1
    injection h1 with h1'
    subst h1'
    refine ⟨?_, get_entry_append_self db e1 hfind⟩
    unfold add_entry Db.add_entry
    rw [hid, get_entry_append_self db e1 hfind]

/-- Claim C7, witness at a concrete duplicated id. -/
theorem C7_witness :
    add_entry [⟨"a", [104], 0, none⟩] ⟨"a", [1], 0, none⟩
      = Except.error Error.EntryAlreadyExists ∧
    Db.get_entry [⟨"a", [104], 0, none⟩] "a" = some ⟨"a", [104], 0, none⟩ :=
  C7_insert_once [] [⟨"a", [104], 0, none⟩] ⟨"a", [104], 0, none⟩
    ⟨"a", [1], 0, none⟩ rfl rfl

/-- Claim C8: `pad` fails with `InvalidKeyLen` exactly when the byte
lengths of key and data differ, and the error carries both lengths. -/
theorem C8_length_mismatch (key data : Str) :
    ((∃ kl dl, pad key data = PadResult.err (Error.InvalidKeyLen kl dl)) ↔
      byteLen key ≠ byteLen data) ∧
    (byteLen key ≠ byteLen data →
      pad key data
        = PadResult.err (Error.InvalidKeyLen (byteLen key) (byteLen data))) := by
  constructor
  · constructor
    · rintro ⟨kl, dl, h⟩ heq
      unfold pad at h
      rw [if_neg (fun hne => hne heq)] at h
      exact padGo_ne_err key data _ h
    · intro hne
      refine ⟨byteLen key, byteLen data, ?_⟩
      unfold pad
      rw [if_pos hne]
  · intro hne
    unfold pad
    rw [if_pos hne]

/-- Claim C8, witness at a concrete mismatched pair (lengths 3 and 2). -/
theorem C8_witness :
    byteLen [1, 2, 3] ≠ byteLen [4, 5] ∧
    pad [1, 2, 3] [4, 5]
      = PadResult.err (Error.InvalidKeyLen (byteLen [1, 2, 3]) (byteLen [4, 5])) :=
  ⟨by decide, (C8_length_mismatch [1, 2, 3] [4, 5]).2 (by decide)⟩

/-- Claim C9: at the equal-byte-length pair key `U+0800`, data `U+D000`
(both valid scalar values), the per-position XOR yields `0xD800`, a
surrogate and hence not a valid scalar value, and `pad` panics on the
`unwrap` instead of returning a structured error. -/
theorem C9_panic_on_invalid_scalar :
    byteLen [0x800] = byteLen [0xD000] ∧
    IsScalar 0x800 ∧ IsScalar 0xD000 ∧
    ¬ IsScalar (Nat.xor 0xD000 0x800) ∧
    pad [0x800] [0xD000] = PadResult.panic := by decide

/-- Claim C2, counterexample: an entry written with the Unicode key
`[U+0100, a]` and plaintext `[a, U+0100]` stores content `[U+0161, U+0161]`
(the write-time `pad` succeeds), yet revealing it with the correct key
fails with `InvalidKeyLen` instead of returning the plaintext, because the
XOR changed the UTF-8 byte length of the stored content. -/
theorem C2_counterexample :
    pad [256, 97] [97, 256] = PadResult.ok [353, 353] ∧
    decrypt [⟨"b", [353, 353], 1, some [256, 97]⟩] "b" [256, 97]
      = DecryptResult.err (Error.InvalidKeyLen 3 4) := by decide

/-- Claim C2 (amended): for every ASCII key/plaintext pair whose write-time
encoding succeeded, revealing with the correct key returns the exact
original plaintext, and revealing with any incorrect key of the same byte
length as the stored key returns `InvalidKey` and no plaintext. -/
theorem C2_reveal (key pt out : Str) (id : String) (db : Db) (enc : Int)
    (hk : ∀ c ∈ key, c < 128) (hp : ∀ c ∈ pt, c < 128)
    (hpad : pad key pt = PadResult.ok out)
    (hdb : Db.get_entry db id = some ⟨id, out, enc, some key⟩) :
    decrypt db id key = DecryptResult.ok pt ∧
    ∀ wrong, wrong ≠ key → byteLen wrong = byteLen key →
      decrypt db id wrong = DecryptResult.err Error.InvalidKey := by
  have hlen : byteLen key = byteLen pt := by
    by_contra hne
    unfold pad at hpad
    rw [if_pos hne] at hpad
    exact absurd hpad (by simp)
  have hgo : padGo key pt = PadResult.ok out := by
    unfold pad at hpad
    rwa [if_neg (fun h => h hlen)] at hpad
  have hlen' : key.length = pt.length := by
    rw [← byteLen_ascii hk, ← byteLen_ascii hp]
    exact hlen
  obtain ⟨out2, h1, h2, h3, h4⟩ := padGo_involution key pt hk hp hlen'
  have hout : out2 = out := by
    rw [hgo] at h1
    injection h1 with h1'
    exact h1'.symm
  subst hout
  have hbout : byteLen out2 = byteLen key := by
    rw [byteLen_ascii h2, h3, byteLen_ascii hk]
  constructor
  · have hcmp : not_so_constant_time_strcmp key key = (CmpOutcome.ok, key.length) := by
      unfold not_so_constant_time_strcmp
      rw [if_neg (fun h => h rfl)]
      exact strcmpGo_self key
    have hpad2 : pad key out2 = PadResult.ok pt := by
      unfold pad
      rw [if_neg (fun h => h hbout.symm)]
      exact h4
    simp only [decrypt, hdb]
    rw [hcmp, hpad2]
  · intro wrong hne hblen
    have hcmp : ∃ n, not_so_constant_time_strcmp wrong key = (CmpOutcome.invalidKey, n) := by
      unfold not_so_constant_time_strcmp
      rw [if_neg (fun h => h hblen)]
      exact strcmpGo_ne wrong key hblen hne
    obtain ⟨n, hcmp⟩ := hcmp
    simp only [decrypt, hdb]
    rw [hcmp]

/-- Claim C2, witness: the key `"world"` over the plaintext `"hello"`
(as scalar values), with one concrete wrong key of the same length. -/
theorem C2_witness :
    decrypt [⟨"b", [31, 10, 30, 0, 11], 1, some [119, 111, 114, 108, 100]⟩] "b"
        [119, 111, 114, 108, 100]
      = DecryptResult.ok [104, 101, 108, 108, 111] ∧
    ∀ wrong, wrong ≠ [119, 111, 114, 108, 100] →
      byteLen wrong = byteLen [119, 111, 114, 108, 100] →
      decrypt [⟨"b", [31, 10, 30, 0, 11], 1, some [119, 111, 114, 108, 100]⟩] "b"
          wrong
        = DecryptResult.err Error.InvalidKey :=
  C2_reveal [119, 111, 114, 108, 100] [104, 101, 108, 108, 111]
    [31, 10, 30, 0, 11] "b" _ 1 (by decide) (by decide) (by decide) rfl

/-- Claim C6, counterexample: revealing a protected entry whose stored key
has byte length 5 with a presented key of byte length 2 answers
`InvalidKeyLen 2 5` — an error that is not `InvalidKey` and that carries
the stored key's length. -/
theorem C6_counterexample :
    decrypt [⟨"e", [31, 10], 1, some [119, 111, 114, 108, 100]⟩] "e" [120, 121]
      = DecryptResult.err (Error.InvalidKeyLen 2 5) := by decide

/-- Claim C6 (amended): on a protected entry, a presented key whose byte
length differs from the stored key's yields `InvalidKeyLen` carrying both
the presented and the stored key's byte lengths (exposing the stored key's
length), while a non-matching key of equal byte length yields `InvalidKey`
with no position information. -/
theorem C6_error_kinds (db : Db) (id : String) (e : Entry) (key pk : Str)
    (hdb : Db.get_entry db id = some e) (hkey : e.key = some key) :
    (byteLen pk ≠ byteLen key →
      decrypt db id pk
        = DecryptResult.err (Error.InvalidKeyLen (byteLen pk) (byteLen key))) ∧
    (byteLen pk = byteLen key → pk ≠ key →
      decrypt db id pk = DecryptResult.err Error.InvalidKey) := by
  constructor
  · intro hne
    have hcmp : not_so_constant_time_strcmp pk key
        = (CmpOutcome.lenErr (byteLen pk) (byteLen key), 0) := by
      unfold not_so_constant_time_strcmp
      rw [if_pos hne]
    simp only [decrypt, hdb, hkey]
    rw [hcmp]
  · intro hblen hne
    have hcmp : ∃ n, not_so_constant_time_strcmp pk key
        = (CmpOutcome.invalidKey, n) := by
      unfold not_so_constant_time_strcmp
      rw [if_neg (fun h => h hblen)]
      exact strcmpGo_ne pk key hblen hne
    obtain ⟨n, hcmp⟩ := hcmp
    simp only [decrypt, hdb, hkey]
    rw [hcmp]

/-- Claim C6, witness: a concrete wrong-length key and a concrete
equal-length wrong key against the same stored entry. -/
theorem C6_witness :
    decrypt [⟨"f", [1, 2, 3, 4, 5], 1, some [10, 11, 12, 13, 14]⟩] "f" [9, 9]
      = DecryptResult.err
          (Error.InvalidKeyLen (byteLen [9, 9]) (byteLen [10, 11, 12, 13, 14])) ∧
    decrypt [⟨"f", [1, 2, 3, 4, 5], 1, some [10, 11, 12, 13, 14]⟩] "f"
        [9, 9, 9, 9, 9]
      = DecryptResult.err Error.InvalidKey :=
  ⟨(C6_error_kinds [⟨"f", [1, 2, 3, 4, 5], 1, some [10, 11, 12, 13, 14]⟩] "f"
      ⟨"f", [1, 2, 3, 4, 5], 1, some [10, 11, 12, 13, 14]⟩
      [10, 11, 12, 13, 14] [9, 9] rfl rfl).1 (by decide),
   (C6_error_kinds [⟨"f", [1, 2, 3, 4, 5], 1, some [10, 11, 12, 13, 14]⟩] "f"
      ⟨"f", [1, 2, 3, 4, 5], 1, some [10, 11, 12, 13, 14]⟩
      [10, 11, 12, 13, 14] [9, 9, 9, 9, 9] rfl rfl).2 (by decide) (by decide)⟩

/-- Claim C10: the decrypt route decides the not-encrypted branch solely
from the presence of the `key` field — its result is unchanged by the
stored `encrypted` discriminant; a `None` key yields `EntryNotEncrypted`
whatever the discriminant is, and a `Some` key never does. -/
theorem C10_encrypted_flag_ignored (db1 db2 : Db) (id : String) (e : Entry)
    (enc1 enc2 : Int) (pk : Str)
    (h1 : Db.get_entry db1 id = some { e with encrypted := enc1 })
    (h2 : Db.get_entry db2 id = some { e with encrypted := enc2 }) :
    decrypt db1 id pk = decrypt db2 id pk ∧
    (e.key = none →
      decrypt db1 id pk = DecryptResult.err (Error.EntryNotEncrypted id)) ∧
    (∀ k, e.key = some k →
      decrypt db1 id pk ≠ DecryptResult.err (Error.EntryNotEncrypted id)) := by
  refine ⟨?_, ?_, ?_⟩
  · simp only [decrypt, h1, h2]
  · intro hk
    simp only [decrypt, h1, hk]
  · intro k hk hcontra
    simp only [decrypt, h1, hk] at hcontra
    rcases hc : not_so_constant_time_strcmp pk k with ⟨o, n⟩
    rw [hc] at hcontra
    cases o with
    | ok =>
      cases hp : pad pk e.content with
      | ok out =>
        rw [hp] at hcontra
        exact absurd hcontra (by simp)
      | err er =>
        rw [hp] at hcontra
        have := pad_err_elim pk e.content er hp
        subst this
        exact absurd hcontra (by simp)
      | panic =>
        rw [hp] at hcontra
        exact absurd hcontra (by simp)
    | invalidKey => exact absurd hcontra (by simp)
    | lenErr al bl => exact absurd hcontra (by simp)
    | panic => exact absurd hcontra (by simp)

/-- Claim C10, witness: two stores holding the same protected entry with
discriminants 7 and 0 produce the same decrypt result, and the entry with
a present key is never reported as not encrypted. -/
theorem C10_witness :
    decrypt [⟨"p", [1, 2], 7, some [3, 4]⟩] "p" [9, 9]
      = decrypt [⟨"p", [1, 2], 0, some [3, 4]⟩] "p" [9, 9] ∧
    ((⟨"p", [1, 2], 0, some [3, 4]⟩ : Entry).key = none →
      decrypt [⟨"p", [1, 2], 7, some [3, 4]⟩] "p" [9, 9]
        = DecryptResult.err (Error.EntryNotEncrypted "p")) ∧
    (∀ k, (⟨"p", [1, 2], 0, some [3, 4]⟩ : Entry).key = some k →
      decrypt [⟨"p", [1, 2], 7, some [3, 4]⟩] "p" [9, 9]
        ≠ DecryptResult.err (Error.EntryNotEncrypted "p")) :=
  C10_encrypted_flag_ignored [⟨"p", [1, 2], 7, some [3, 4]⟩]
    [⟨"p", [1, 2], 0, some [3, 4]⟩] "p" ⟨"p", [1, 2], 0, some [3, 4]⟩ 7 0
    [9, 9] rfl rfl

end Pastebin
